import Mathlib

/-!
Verification model of the obsidian-ai-chat request-orchestration core.

Strings from the TypeScript source are modelled as `List Char` (`Chars`);
byte streams are modelled at character granularity (the concrete streams
used below are ASCII, where one byte is one character).  JavaScript string
truthiness (`!s` / `if (s)`) is the emptiness test, and `string.trim()` is
modelled by `trimChars` over the JS whitespace characters that can occur
here.  Machine timestamps (`Date.now()`) and generated ids are passed in
explicitly as parameters, since the source obtains them from the host.
-/

abbrev Chars := List Char

/-- JS whitespace for `String.prototype.trim` (the subset relevant here). -/
def isJsWs (c : Char) : Bool :=
  c = ' ' || c = '\t' || c = '\n' || c = '\r' || c = '\x0b' || c = '\x0c'

/-- Model of `s.trim()`: drop whitespace from both ends. -/
def trimChars (cs : Chars) : Chars :=
  ((cs.dropWhile isJsWs).reverse.dropWhile isJsWs).reverse

/-- First index and element satisfying `p` (`Array.prototype.findIndex` plus
the found element), `none` when absent. -/
def findFirst (p : α → Bool) : List α → Option (Nat × α)
  | [] => none
  | x :: xs =>
    if p x then some (0, x)
    else (findFirst p xs).map (fun q => (q.1 + 1, q.2))

/-! ## Live Selection Tracker (src/context/live-selection.ts) -/

/-- `LiveSelection` record: `{content, sourcePath?, timestamp}`. -/
structure LiveSelection where
  content : Chars
  sourcePath : Option Chars
  timestamp : Nat
  deriving DecidableEq, Repr

/-- State of a `LiveSelectionManager`: the single selection slot plus whether
an `onChangeCallback` is registered (the callback slot holds at most one
subscriber). -/
structure LiveSelState where
  currentSelection : Option LiveSelection
  hasCallback : Bool
  deriving DecidableEq, Repr

/-- Number of callback invocations produced by one `notifyChange()` call:
one when a callback is registered, zero otherwise. -/
def notifyCount (st : LiveSelState) : Nat :=
  if st.hasCallback then 1 else 0

/-- `clearSelection()`: empties the slot; notifies only if a selection
existed.  Returns the new state and the number of callback invocations. -/
def clearSelection (st : LiveSelState) : LiveSelState × Nat :=
  let hadSelection := st.currentSelection.isSome
  ({ st with currentSelection := none },
   if hadSelection then notifyCount st else 0)

/-- `setSelection(content, sourcePath?)`: empty-after-trim content delegates
to `clearSelection`; otherwise the slot is replaced wholesale and listeners
are notified.  `now` stands for `Date.now()`. -/
def setSelection (st : LiveSelState) (content : Chars) (sourcePath : Option Chars)
    (now : Nat) : LiveSelState × Nat :=
  if content = [] ∨ trimChars content = [] then
    clearSelection st
  else
    ({ st with currentSelection := some ⟨content, sourcePath, now⟩ },
     notifyCount st)

/-- `getPreview(maxLength = 100)`: full content when it fits, otherwise the
first `maxLength - 3` characters followed by `"..."`.  JS
`substring(0, maxLength - 3)` clamps a negative bound to `0`, which Nat
subtraction models exactly. -/
def getPreview (st : LiveSelState) (maxLength : Nat) : Chars :=
  match st.currentSelection with
  | none => []
  | some sel =>
    if sel.content.length ≤ maxLength then sel.content
    else sel.content.take (maxLength - 3) ++ ('.' :: '.' :: '.' :: [])

/-! ## Settings Registry (SettingsManager) -/

/-- Provider wire dialect tag. -/
inductive ProviderType
  | openai
  | anthropic
  | custom
  deriving DecidableEq, Repr

/-- `AIProvider` record (the `type` field is named `ptype` here). -/
structure AIProvider where
  id : Chars
  name : Chars
  baseUrl : Chars
  apiKey : Chars
  enabled : Bool
  ptype : ProviderType
  deriving DecidableEq, Repr

/-- `AIModel` record. -/
structure AIModel where
  id : Chars
  name : Chars
  providerId : Chars
  modelIdentifier : Chars
  isDefault : Bool
  deriving DecidableEq, Repr

/-- The slice of `PluginSettings` touched by the registry operations under
verification (sessions and the scalar options are never read or written by
`addModel`/`updateModel`/`setDefaultModel`/`deleteProvider`). -/
structure SettingsState where
  providers : List AIProvider
  models : List AIModel
  deriving DecidableEq, Repr

/-- `validateModel`: accumulated error messages for blank `name`,
`providerId`, `modelIdentifier`; the result is valid iff this list is
empty. -/
def validateModel (name providerId modelIdentifier : Chars) : List String :=
  (if trimChars name = [] then ["Model name is required"] else []) ++
  (if trimChars providerId = [] then ["Provider ID is required"] else []) ++
  (if trimChars modelIdentifier = [] then ["Model identifier is required"] else [])

/-- `Omit<AIModel, 'id'>`: the input of `addModel`. -/
structure NewModel where
  name : Chars
  providerId : Chars
  modelIdentifier : Chars
  isDefault : Bool
  deriving DecidableEq, Repr

/-- `addModel(model)`: validate, check the provider exists, generate an id,
unset all other defaults when the new model is default, and push.  Returns
the new state and the `success` flag. -/
def addModel (st : SettingsState) (m : NewModel) (newId : Chars) :
    SettingsState × Bool :=
  if validateModel m.name m.providerId m.modelIdentifier ≠ [] then (st, false)
  else if ¬ st.providers.any (fun p => p.id = m.providerId) then (st, false)
  else
    let newModel : AIModel := ⟨newId, m.name, m.providerId, m.modelIdentifier, m.isDefault⟩
    let models :=
      if newModel.isDefault then
        st.models.map (fun x => { x with isDefault := false })
      else st.models
    ({ st with models := models ++ [newModel] }, true)

/-- `Partial<Omit<AIModel, 'id'>>`: the `updates` argument of
`updateModel`. -/
structure ModelUpdates where
  name : Option Chars
  providerId : Option Chars
  modelIdentifier : Option Chars
  isDefault : Option Bool
  deriving DecidableEq, Repr

/-- The object spread `{...model, ...updates}`. -/
def applyUpdates (m : AIModel) (u : ModelUpdates) : AIModel :=
  ⟨m.id, u.name.getD m.name, u.providerId.getD m.providerId,
   u.modelIdentifier.getD m.modelIdentifier, u.isDefault.getD m.isDefault⟩

/-- The `updateModel` re-check `if (updates.providerId) { ...not found... }`:
performed only when the updated `providerId` is truthy (present and
non-empty). -/
def providerMissingFor (st : SettingsState) (pid : Option Chars) : Bool :=
  match pid with
  | some p => !(p.isEmpty) && !(st.providers.any (fun q => q.id = p))
  | none => false

/-- `updateModel(id, updates)`: find the model, validate the merged record,
re-check the provider when `updates.providerId` is truthy (a non-empty
string), unset all defaults when `updates.isDefault` is truthy, and store
the merged record at the found index. -/
def updateModel (st : SettingsState) (id : Chars) (u : ModelUpdates) :
    SettingsState × Bool :=
  match findFirst (fun m => m.id = id) st.models with
  | none => (st, false)
  | some (i, old) =>
    let updated := applyUpdates old u
    if validateModel updated.name updated.providerId updated.modelIdentifier ≠ [] then
      (st, false)
    else if providerMissingFor st u.providerId then
      (st, false)
    else
      let models :=
        if u.isDefault.getD false then
          st.models.map (fun x => { x with isDefault := false })
        else st.models
      ({ st with models := models.set i updated }, true)

/-- `setDefaultModel(id)`: `false` when `id` matches no model; otherwise
unset `isDefault` on every model and set it on the (first) model with this
id. -/
def setDefaultModel (st : SettingsState) (id : Chars) : SettingsState × Bool :=
  match findFirst (fun m => m.id = id) st.models with
  | none => (st, false)
  | some (i, m) =>
    let cleared := st.models.map (fun x => { x with isDefault := false })
    ({ st with models := cleared.set i { m with isDefault := true } }, true)

/-- `deleteProvider(id)`: remove the (first) provider with this id and every
model whose `providerId` equals `id`; `false` and no change when absent. -/
def deleteProvider (st : SettingsState) (id : Chars) : SettingsState × Bool :=
  match findFirst (fun p => p.id = id) st.providers with
  | none => (st, false)
  | some (i, _) =>
    ({ providers := st.providers.eraseIdx i,
       models := st.models.filter (fun m => ¬ m.providerId = id) }, true)

/-- Number of models flagged as default. -/
def defaultCount (st : SettingsState) : Nat :=
  st.models.countP (fun m => m.isDefault)

/-- One registry mutation, for stating the default-uniqueness invariant over
arbitrary operation sequences. -/
inductive RegistryOp
  | setDef (id : Chars)
  | add (m : NewModel) (newId : Chars)
  | update (id : Chars) (u : ModelUpdates)

/-- Apply one registry mutation, discarding the success flag. -/
def applyOp (st : SettingsState) : RegistryOp → SettingsState
  | .setDef id => (setDefaultModel st id).1
  | .add m newId => (addModel st m newId).1
  | .update id u => (updateModel st id u).1

/-! ## Chat data model (src/types.ts) -/

/-- Message role. -/
inductive Role
  | user
  | assistant
  | system
  deriving DecidableEq, Repr

/-- `ChatMessage` record. -/
structure ChatMessage where
  id : Chars
  role : Role
  content : Chars
  timestamp : Nat
  modelId : Option Chars
  deriving DecidableEq, Repr

/-- `ContextItem.type` tag (field named `ctype` here). -/
inductive CtxType
  | file
  | folder
  | selection
  deriving DecidableEq, Repr

/-- `ContextItem` record. -/
structure ContextItem where
  id : Chars
  ctype : CtxType
  path : Option Chars
  content : Chars
  displayName : Chars
  deriving DecidableEq, Repr

/-- `ChatSession` record. -/
structure ChatSession where
  id : Chars
  messages : List ChatMessage
  contextItems : List ContextItem
  currentModelId : Chars
  createdAt : Nat
  updatedAt : Nat
  deriving DecidableEq, Repr

/-! ## Chat State Manager (src/state/chat-state.ts) -/

/-- `MAX_SESSIONS` (src/ui/chat-view.ts, re-exported via constants). -/
def MAX_SESSIONS : Nat := 10

/-- State owned by a `ChatStateManager`. -/
structure ChatState where
  sessions : List ChatSession
  currentSessionId : Option Chars
  deriving DecidableEq, Repr

/-- Comparator `(a, b) => b.updatedAt - a.updatedAt` as a Bool order:
descending by `updatedAt`.  `Array.prototype.sort` is stable, as is
`List.mergeSort`. -/
def sessionGe (a b : ChatSession) : Bool :=
  b.updatedAt ≤ a.updatedAt

/-- `pruneSessions()`: when the session count exceeds `MAX_SESSIONS`, sort
descending by `updatedAt`, keep the first `MAX_SESSIONS`, and when the
current id (truthy, i.e. non-empty) is no longer present repoint it to the
first survivor (or `null` when none remain). -/
def pruneSessions (st : ChatState) : ChatState :=
  if MAX_SESSIONS < st.sessions.length then
    let kept := (st.sessions.mergeSort sessionGe).take MAX_SESSIONS
    let cur :=
      match st.currentSessionId with
      | none => none
      | some cid =>
        if cid ≠ [] ∧ ¬ kept.any (fun s => s.id = cid) then
          match kept with
          | [] => none
          | s :: _ => some s.id
        else some cid
    ⟨kept, cur⟩
  else st

/-- `createSession(modelId)`: push a fresh empty session, make it current,
then prune.  `newId` stands for `generateId()` and `now` for `Date.now()`.
Returns the created session and the new manager state. -/
def createSession (st : ChatState) (modelId : Chars) (newId : Chars) (now : Nat) :
    ChatSession × ChatState :=
  let session : ChatSession := ⟨newId, [], [], modelId, now, now⟩
  (session, pruneSessions ⟨st.sessions ++ [session], some session.id⟩)

/-! ## Context Assembly formatting (context-manager.ts and utils) -/

/-- Splitting a character list at `'\n'`: returns the complete lines (all
parts before the last separator) and the final, possibly incomplete,
part.  `String.prototype.split('\n')` yields exactly
`linesOf cs |>.1 ++ [linesOf cs |>.2]`. -/
def linesOf : Chars → List Chars × Chars
  | [] => ([], [])
  | c :: cs =>
    let p := linesOf cs
    if c = '\n' then ([] :: p.1, p.2)
    else
      match p.1 with
      | [] => ([], c :: p.2)
      | l :: ls => ((c :: l) :: ls, p.2)

/-- All parts of `split('\n')`, including the final one. -/
def splitLines (cs : Chars) : List Chars :=
  (linesOf cs).1 ++ [(linesOf cs).2]

/-- `formatFileContext(path, content)` (context-manager.ts). -/
def formatFileContext (path content : Chars) : Chars :=
  ("--- File: ").toList ++ path ++ (" ---\n").toList ++ content ++
    ("\n--- End of ").toList ++ path ++ (" ---").toList

/-- `formatSelectionContext(content)`: each line quoted with `"> "`. -/
def formatSelectionContext (content : Chars) : Chars :=
  List.intercalate ('\n' :: []) ((splitLines content).map (fun l => ('>' :: ' ' :: []) ++ l))

/-- `ContextManager.formatContextForAPI()` applied to the items of the
manager in insertion order (`getActiveContext()` returns them in insertion
order).  `item.path || item.displayName` is JS truthiness: an absent or
empty path falls back to the display name. -/
def formatContextForAPI (items : List ContextItem) : Chars :=
  if items.length = 0 then []
  else
    let formattedItems := items.map (fun item =>
      match item.ctype with
      | .selection => ("[Selected Text]\n").toList ++ formatSelectionContext item.content
      | _ =>
        let p := match item.path with
                 | some q => if q ≠ [] then q else item.displayName
                 | none => item.displayName
        formatFileContext p item.content)
    ("The following context has been provided:\n\n").toList ++
      List.intercalate ("\n\n").toList formattedItems

/-! ## AI Provider Client: request building (src/services/ai-client.ts) -/

/-- The synthetic context message id `'context-' + Date.now()`. -/
def contextIdOf (now : Nat) : Chars :=
  ("context-").toList ++ (Nat.toDigits 10 now)

/-- `AIServiceClient.prependContext(messages, contextItems)`: with no items
the messages are returned unchanged; otherwise one synthetic system message
is prepended whose content is `"Context:\n\n"` followed by the items
rendered as `"[" + displayName + "]\n" + content` joined by
`"\n\n---\n\n"`. -/
def prependContext (messages : List ChatMessage) (contextItems : List ContextItem)
    (now : Nat) : List ChatMessage :=
  if contextItems.length = 0 then messages
  else
    let contextContent :=
      List.intercalate ("\n\n---\n\n").toList
        (contextItems.map (fun item =>
          ('[' :: item.displayName) ++ (']' :: '\n' :: item.content)))
    let contextMessage : ChatMessage :=
      ⟨contextIdOf now, .system, ("Context:\n\n").toList ++ contextContent, now, none⟩
    contextMessage :: messages

/-! ## JSON model (`JSON.parse` and property access) -/

/-- JSON values.  Numbers are modelled as integers: no frame relevant to the
claims carries a fractional number, and the parser below accepts the
integer subset of JSON numbers. -/
inductive JsonValue
  | null
  | bool (b : Bool)
  | num (n : Int)
  | str (s : Chars)
  | arr (elems : List JsonValue)
  | obj (fields : List (Chars × JsonValue))

/-- JS truthiness of a JSON value: `null`, `false`, `0` and `""` are falsy;
every array or object is truthy. -/
def truthy : JsonValue → Bool
  | .null => false
  | .bool b => b
  | .num n => n ≠ 0
  | .str s => s ≠ []
  | .arr _ => true
  | .obj _ => true

/-- Property access `v[k]` on a parsed JSON value: defined on objects (with
JS last-duplicate-wins semantics), `none` (undefined) elsewhere. -/
def getProp (v : JsonValue) (k : Chars) : Option JsonValue :=
  match v with
  | .obj fields => ((fields.filter (fun f => f.1 = k)).getLast?).map (fun f => f.2)
  | _ => none

/-- Escape decoding for the single-character JSON string escapes. -/
def jsonEscChar (c : Char) : Option Char :=
  if c = '"' then some '"'
  else if c = '\\' then some '\\'
  else if c = '/' then some '/'
  else if c = 'b' then some '\x08'
  else if c = 'f' then some '\x0c'
  else if c = 'n' then some '\n'
  else if c = 'r' then some '\r'
  else if c = 't' then some '\t'
  else none

/-- Parse the body of a JSON string after the opening quote; returns the
string contents and the input after the closing quote.  `\uXXXX` escapes are
not modelled (no claim exercises them). -/
def parseStringBody : Chars → Option (Chars × Chars)
  | [] => none
  | c :: rest =>
    if c = '"' then some ([], rest)
    else if c = '\\' then
      match rest with
      | [] => none
      | e :: rest2 =>
        match jsonEscChar e with
        | none => none
        | some d => (parseStringBody rest2).map (fun q => (d :: q.1, q.2))
    else (parseStringBody rest).map (fun q => (c :: q.1, q.2))

/-- Skip JSON insignificant whitespace. -/
def skipWs (cs : Chars) : Chars :=
  cs.dropWhile (fun c => c = ' ' || c = '\t' || c = '\n' || c = '\r')

/-- Parse a nonempty digit run as a natural number. -/
def parseDigits : Chars → Option (Nat × Chars)
  | [] => none
  | c :: rest =>
    if c.isDigit then
      match parseDigits rest with
      | some (n, r) =>
        -- the digits of `rest` continue the literal
        some ((c.toNat - '0'.toNat) * 10 ^ (rest.length - r.length) + n, r)
      | none => some (c.toNat - '0'.toNat, rest)
    else none

mutual

/-- Recursive-descent JSON value parser; `fuel` bounds the nesting depth
(one unit per recursion level, so `input.length + 1` always suffices). -/
def parseVal : Nat → Chars → Option (JsonValue × Chars)
  | 0, _ => none
  | Nat.succ fuel, cs =>
    match skipWs cs with
    | [] => none
    | c :: rest =>
      if c = '"' then
        (parseStringBody rest).map (fun q => (JsonValue.str q.1, q.2))
      else if c = '[' then
        match skipWs rest with
        | ']' :: r => some (.arr [], r)
        | _ => (parseElems fuel rest).map (fun q => (JsonValue.arr q.1, q.2))
      else if c = '\x7b' then
        match skipWs rest with
        | '\x7d' :: r => some (.obj [], r)
        | _ => (parseMembers fuel rest).map (fun q => (JsonValue.obj q.1, q.2))
      else if c = 't' then
        match rest with
        | 'r' :: 'u' :: 'e' :: r => some (.bool true, r)
        | _ => none
      else if c = 'f' then
        match rest with
        | 'a' :: 'l' :: 's' :: 'e' :: r => some (.bool false, r)
        | _ => none
      else if c = 'n' then
        match rest with
        | 'u' :: 'l' :: 'l' :: r => some (.null, r)
        | _ => none
      else if c = '-' then
        (parseDigits rest).map (fun q => (JsonValue.num (-(q.1 : Int)), q.2))
      else if c.isDigit then
        (parseDigits (c :: rest)).map (fun q => (JsonValue.num (q.1 : Int), q.2))
      else none

/-- Parse one or more comma-separated array elements up to `']'`. -/
def parseElems : Nat → Chars → Option (List JsonValue × Chars)
  | 0, _ => none
  | Nat.succ fuel, cs =>
    match parseVal fuel cs with
    | none => none
    | some (v, rest) =>
      match skipWs rest with
      | ',' :: r =>
        (parseElems fuel r).map (fun q => (v :: q.1, q.2))
      | ']' :: r => some ([v], r)
      | _ => none

/-- Parse one or more comma-separated object members up to `'\x7d'`. -/
def parseMembers : Nat → Chars → Option (List (Chars × JsonValue) × Chars)
  | 0, _ => none
  | Nat.succ fuel, cs =>
    match skipWs cs with
    | '"' :: rest =>
      match parseStringBody rest with
      | none => none
      | some (key, rest2) =>
        match skipWs rest2 with
        | ':' :: rest3 =>
          match parseVal fuel rest3 with
          | none => none
          | some (v, rest4) =>
            match skipWs rest4 with
            | ',' :: r => (parseMembers fuel r).map (fun q => ((key, v) :: q.1, q.2))
            | '\x7d' :: r => some ([(key, v)], r)
            | _ => none
        | _ => none
    | _ => none

end

/-- `JSON.parse(data)`: the whole input must be consumed (up to trailing
whitespace); `none` models a thrown `SyntaxError`. -/
def parseJson (cs : Chars) : Option JsonValue :=
  match parseVal (cs.length + 1) cs with
  | none => none
  | some (v, rest) => if skipWs rest = [] then some v else none

/-! ## AI Provider Client: streaming parse (handleStreamResponse) -/

/-- The lookup `parsed.choices?.[0]?.delta?.content` (OpenAI shape). -/
def deltaContent (v : JsonValue) : Option JsonValue :=
  match getProp v ("choices").toList with
  | some (.arr (c0 :: _)) =>
    (getProp c0 ("delta").toList).bind (fun d => getProp d ("content").toList)
  | _ => none

/-- The lookup `parsed.delta?.text` (Anthropic shape). -/
def deltaText (v : JsonValue) : Option JsonValue :=
  (getProp v ("delta").toList).bind (fun d => getProp d ("text").toList)

/-- `extractStreamContent(parsed)`: probe `choices?.[0]?.delta?.content`
(OpenAI), then `delta?.text` (Anthropic); return the first truthy hit, and
the falsy `""` otherwise.  Property access on `null` throws in JS, but the
throw is caught by the same `catch` that skips malformed JSON, so mapping it
to the falsy result is observationally identical. -/
def extractStreamContent (v : JsonValue) : JsonValue :=
  let fromText : JsonValue :=
    match deltaText v with
    | some tv => if truthy tv then tv else .str []
    | none => .str []
  match deltaContent v with
  | some cv => if truthy cv then cv else fromText
  | none => fromText

/-- The guarded delivery `if (content) onChunk(content)` applied to a parsed
frame: the chunk to deliver, or `none`. -/
def emitOf (v : JsonValue) : Option JsonValue :=
  let content := extractStreamContent v
  if truthy content then some content else none

/-- Outcome of processing one complete line of the stream. -/
inductive LineRes
  | stop
  | skip
  | emit (c : JsonValue)

/-- The literal `"data: "`. -/
def dataMark : Chars := ("data: ").toList

/-- The sentinel `"[DONE]"`. -/
def doneMark : Chars := ("[DONE]").toList

/-- Process one complete line: trim; skip when blank or not a `data: `
line; stop on the `[DONE]` sentinel; otherwise `JSON.parse` the payload,
skipping on failure, and deliver a truthy extracted delta. -/
def procLine (line : Chars) : LineRes :=
  let t := trimChars line
  if t = [] then .skip
  else if dataMark.isPrefixOf t then
    let d := t.drop 6
    if d = doneMark then .stop
    else
      match parseJson d with
      | none => .skip
      | some v =>
        match emitOf v with
        | some c => .emit c
        | none => .skip

  else .skip

/-- Parser state between lines: whether `[DONE]` was hit, and the chunks
delivered so far in order. -/
structure PState where
  done : Bool
  out : List JsonValue

/-- Fold one line into the parser state; after `[DONE]` the source function
has returned, so the state is absorbing. -/
def stepLine (s : PState) (line : Chars) : PState :=
  if s.done then s
  else
    match procLine line with
    | .stop => { s with done := true }
    | .skip => s
    | .emit c => { s with out := s.out ++ [c] }

/-- Fold a list of complete lines. -/
def procLines (s : PState) (ls : List Chars) : PState :=
  ls.foldl stepLine s

/-- Full state across reads: the held-back buffer plus the line-processing
state.  Once `[DONE]` is hit the buffer is dead (the source returns from
the whole function), so it is canonicalised to `[]`. -/
structure StState where
  buf : Chars
  st : PState

/-- One iteration of the read loop: append the decoded read to the buffer,
split on newlines, keep the last (possibly incomplete) line in the buffer,
and process every complete line. -/
def feed (s : StState) (a : Chars) : StState :=
  if s.st.done then s
  else
    let p := linesOf (s.buf ++ a)
    let st2 := procLines s.st p.1
    if st2.done then ⟨[], st2⟩ else ⟨p.2, st2⟩

/-- After the upstream closes: flush a final complete `data: ` frame (not
`[DONE]`) still sitting in the buffer. -/
def finishStream (s : StState) : List JsonValue :=
  if s.st.done then s.st.out
  else
    let t := trimChars s.buf
    if dataMark.isPrefixOf t then
      let d := t.drop 6
      if d = doneMark then s.st.out
      else
        match parseJson d with
        | none => s.st.out
        | some v =>
          match emitOf v with
          | some c => s.st.out ++ [c]
          | none => s.st.out
    else s.st.out

/-- `handleStreamResponse`, as a function from the successive decoded reads
of the response body to the ordered list of chunks passed to `onChunk`. -/
def handleStreamResponse (reads : List Chars) : List JsonValue :=
  finishStream (reads.foldl feed ⟨[], ⟨false, []⟩⟩)

/-! ## AI Provider Client: dispatch and classification (makeRequest) -/

/-- `APIErrorType`. -/
inductive APIErrorType
  | auth
  | rate_limit
  | network
  | server
  | timeout
  | unknown
  deriving DecidableEq, Repr

/-- `APIError` record.  The `retry-after` header is modelled as the parsed
numeric value (`parseInt` of the header string). -/
structure APIErr where
  message : String
  etype : APIErrorType
  statusCode : Option Nat
  retryAfter : Option Nat
  deriving DecidableEq, Repr

/-- `classifyError(response)` on a non-ok response with the given status and
(parsed) `retry-after` header. -/
def classifyError (status : Nat) (retryAfterHdr : Option Nat) : APIErr :=
  if status = 401 || status = 403 then
    ⟨"Invalid API key. Please check your provider settings.", .auth, some status, none⟩
  else if status = 429 then
    ⟨"Rate limit exceeded. Please wait before sending another message.", .rate_limit,
     some status, retryAfterHdr⟩
  else if 500 ≤ status then
    ⟨"AI provider service error. Please try again later.", .server, some status, none⟩
  else
    ⟨"API error", .unknown, some status, none⟩

/-- Result of one `fetch` attempt, as observed by `makeRequest`. -/
inductive FetchResult
  | ok
  | httpErr (status : Nat) (retryAfterHdr : Option Nat)
  | abortErr
  | netErr
  deriving DecidableEq, Repr

/-- `MAX_RETRIES`. -/
def MAX_RETRIES : Nat := 3

/-- The timeout `APIError`. -/
def timeoutErr : APIErr :=
  ⟨"Request timeout. Please try again.", .timeout, none, none⟩

/-- The transport-failure `APIError`. -/
def networkErr : APIErr :=
  ⟨"Network error. Please check your connection and try again.", .network, none, none⟩

/-- What `makeRequest` resolves to: the successful response (after how many
fetch attempts) or the thrown `APIError` (after how many attempts). -/
inductive ReqOutcome
  | success (attempts : Nat)
  | failure (e : APIErr) (attempts : Nat)
  deriving DecidableEq, Repr

/-- The retry loop of `makeRequest`.  `f` gives the result of the fetch at
each attempt index, `remaining` counts loop iterations left, `lastError`
tracks the last classified error.  Auth and rate-limit errors are thrown at
once; other errors retry until the attempt budget is exhausted. -/
def makeRequestAux (f : Nat → FetchResult) :
    Nat → Nat → Option APIErr → ReqOutcome
  | 0, attempt, lastError =>
    -- `throw lastError || new APIError('Unknown error', 'unknown')`
    .failure (lastError.getD ⟨"Unknown error", .unknown, none, none⟩) attempt
  | Nat.succ remaining, attempt, _ =>
    match f attempt with
    | .ok => .success (attempt + 1)
    | .httpErr status hdr =>
      let e := classifyError status hdr
      if e.etype = .auth then .failure e (attempt + 1)
      else if e.etype = .rate_limit then .failure e (attempt + 1)
      else if attempt = MAX_RETRIES - 1 then .failure e (attempt + 1)
      else makeRequestAux f remaining (attempt + 1) (some e)
    | .abortErr =>
      if attempt = MAX_RETRIES - 1 then .failure timeoutErr (attempt + 1)
      else makeRequestAux f remaining (attempt + 1) (some timeoutErr)
    | .netErr =>
      if attempt = MAX_RETRIES - 1 then .failure networkErr (attempt + 1)
      else makeRequestAux f remaining (attempt + 1) (some networkErr)

/-- `makeRequest`, abstracted over the per-attempt fetch results. -/
def makeRequest (f : Nat → FetchResult) : ReqOutcome :=
  makeRequestAux f MAX_RETRIES 0 none

/-- Attempt count of an outcome. -/
def attemptsOf : ReqOutcome → Nat
  | .success n => n
  | .failure _ n => n

/-- The thrown error of an outcome, if it failed. -/
def errOf : ReqOutcome → Option APIErr
  | .success _ => none
  | .failure e _ => some e

/-- A fetch result that the dispatch loop retries: a transport failure, a
timeout abort, or a 5xx response. -/
def retriable : FetchResult → Bool
  | .ok => false
  | .httpErr status _ => 500 ≤ status
  | .abortErr => true
  | .netErr => true

/-- The classified error of a failed fetch result (unused for `ok`). -/
def classifyFetch : FetchResult → APIErr
  | .ok => ⟨"Unknown error", .unknown, none, none⟩
  | .httpErr status hdr => classifyError status hdr
  | .abortErr => timeoutErr
  | .netErr => networkErr

/-! ## Concrete inputs used by the claims -/

/-- SSE frame `data: {"choices":[{"delta":{"content":"Hel"}}]}`. -/
def frameHel : Chars :=
  ("data: \x7b\"choices\":[\x7b\"delta\":\x7b\"content\":\"Hel\"\x7d\x7d]\x7d").toList

/-- SSE frame `data: {"choices":[{"delta":{"content":"lo"}}]}`. -/
def frameLo : Chars :=
  ("data: \x7b\"choices\":[\x7b\"delta\":\x7b\"content\":\"lo\"\x7d\x7d]\x7d").toList

/-- SSE frame `data: {"choices":[{"delta":{"content":"XX"}}]}`, placed after
the `[DONE]` sentinel to check that it is never delivered. -/
def frameXX : Chars :=
  ("data: \x7b\"choices\":[\x7b\"delta\":\x7b\"content\":\"XX\"\x7d\x7d]\x7d").toList

/-- Anthropic-shaped SSE frame `data: {"delta":{"text":"lo"}}`. -/
def frameTextLo : Chars :=
  ("data: \x7b\"delta\":\x7b\"text\":\"lo\"\x7d\x7d").toList

/-- The §8 example stream:
`data: {..."Hel"...}\n\ndata: {..."lo"...}\n\ndata: [DONE]\n\n`. -/
def ex8Stream : Chars :=
  frameHel ++ ("\n\n").toList ++ frameLo ++ ("\n\n").toList ++ ("data: [DONE]\n\n").toList

/-- A stream with a blank line, a JSON-malformed `data:` line, a `[DONE]`
sentinel, and a further well-formed frame after the sentinel. -/
def exStopStream : Chars :=
  frameHel ++ ("\n\ndata: oops\n\n").toList ++ frameLo ++ ("\n").toList ++
    ("data: [DONE]\n").toList ++ frameXX ++ ("\n").toList

/-- A stream whose final frame arrives without a trailing newline and must
be emitted by the end-of-stream flush (via the Anthropic `delta.text`
probe). -/
def exFlushStream : Chars :=
  frameHel ++ ("\n").toList ++ frameTextLo

/-- The chunk sequence `["Hel", "lo"]` expected from the streams above. -/
def helLoChunks : List JsonValue :=
  [.str ("Hel").toList, .str ("lo").toList]

/-- Fetch results `[503, 503, 200]`. -/
def seq503 : Nat → FetchResult
  | 0 => .httpErr 503 none
  | 1 => .httpErr 503 none
  | _ => .ok

/-! ## Lemmas: newline splitting -/

theorem linesOf_append (a b : Chars) :
    linesOf (a ++ b) =
      ((linesOf a).1 ++ (linesOf ((linesOf a).2 ++ b)).1,
       (linesOf ((linesOf a).2 ++ b)).2) := by
  induction a with
  | nil => simp [linesOf]
  | cons c a ih =>
    by_cases hc : c = '\n'
    · subst hc
      simp [linesOf, ih]
    · cases h : (linesOf a).1 with
      | nil =>
        simp only [List.cons_append, linesOf, ih, h, List.nil_append, if_neg hc]
        cases h2 : (linesOf ((linesOf a).2 ++ b)).1 <;> simp [linesOf, ih, h, hc, h2]
      | cons l ls =>
        simp [linesOf, ih, h, if_neg hc]

theorem linesOf_of_not_mem (cs : Chars) (h : '\n' ∉ cs) : linesOf cs = ([], cs) := by
  induction cs with
  | nil => simp [linesOf]
  | cons c cs ih =>
    have hc : ¬ c = '\n' := fun hcc => h (hcc ▸ List.mem_cons_self c cs)
    have ih2 := ih (fun hm => h (List.mem_cons_of_mem c hm))
    simp [linesOf, ih2, if_neg hc]

theorem not_mem_linesOf_snd (cs : Chars) : '\n' ∉ (linesOf cs).2 := by
  induction cs with
  | nil => simp [linesOf]
  | cons c cs ih =>
    by_cases hc : c = '\n'
    · simpa [linesOf, hc] using ih
    · cases h : (linesOf cs).1 with
      | nil =>
        simp only [linesOf, h, if_neg hc]
        intro hm
        rcases List.mem_cons.mp hm with h1 | h2
        · exact hc h1.symm
        · exact ih h2
      | cons l ls =>
        simpa [linesOf, h, if_neg hc] using ih

/-! ## Lemmas: stream state machine -/

theorem stepLine_done (s : PState) (l : Chars) (h : s.done = true) :
    stepLine s l = s := by
  simp [stepLine, h]

theorem procLines_done (s : PState) (ls : List Chars) (h : s.done = true) :
    procLines s ls = s := by
  induction ls with
  | nil => rfl
  | cons l ls ih => simpa [procLines, stepLine_done s l h] using ih

theorem procLines_append (s : PState) (l1 l2 : List Chars) :
    procLines s (l1 ++ l2) = procLines (procLines s l1) l2 :=
  List.foldl_append _ _ _ _

theorem feed_append (s : StState) (a b : Chars) :
    feed (feed s a) b = feed s (a ++ b) := by
  by_cases hd : s.st.done
  · simp [feed, hd]
  · have hla := linesOf_append (s.buf ++ a) b
    have hassoc : s.buf ++ (a ++ b) = (s.buf ++ a) ++ b := (List.append_assoc _ _ _).symm
    by_cases h2 : (procLines s.st (linesOf (s.buf ++ a)).1).done
    · -- [DONE] was hit while processing the first read's lines
      have habs :
          procLines s.st (linesOf (s.buf ++ (a ++ b))).1 =
            procLines s.st (linesOf (s.buf ++ a)).1 := by
        rw [hassoc, hla]
        rw [procLines_append, procLines_done _ _ h2]
      simp [feed, hd, h2, habs]
    · have hsplit :
          procLines s.st (linesOf (s.buf ++ (a ++ b))).1 =
            procLines (procLines s.st (linesOf (s.buf ++ a)).1)
              (linesOf ((linesOf (s.buf ++ a)).2 ++ b)).1 := by
        rw [hassoc, hla]
        exact procLines_append _ _ _
      have hsnd :
          (linesOf (s.buf ++ (a ++ b))).2 =
            (linesOf ((linesOf (s.buf ++ a)).2 ++ b)).2 := by
        rw [hassoc, hla]
      simp only [feed, hd, if_neg, h2, if_false, hsplit, hsnd]
      by_cases h3 :
          (procLines (procLines s.st (linesOf (s.buf ++ a)).1)
            (linesOf ((linesOf (s.buf ++ a)).2 ++ b)).1).done <;>
        simp [h2, h3]

theorem feed_nil (s : StState) (h : '\n' ∉ s.buf) : feed s [] = s := by
  by_cases hd : s.st.done
  · simp [feed, hd]
  · simp [feed, hd, linesOf_of_not_mem s.buf h, procLines]

theorem feed_buf_not_mem (s : StState) (a : Chars) (h : '\n' ∉ s.buf) :
    '\n' ∉ (feed s a).buf := by
  by_cases hd : s.st.done
  · simpa [feed, hd] using h
  · by_cases h2 : (procLines s.st (linesOf (s.buf ++ a)).1).done <;>
      simp [feed, hd, h2, not_mem_linesOf_snd]

theorem foldl_feed_flatten (reads : List Chars) :
    ∀ s : StState, '\n' ∉ s.buf → List.foldl feed s reads = feed s reads.flatten := by
  induction reads with
  | nil =>
    intro s h
    simpa [List.foldl] using (feed_nil s h).symm
  | cons r rs ih =>
    intro s h
    rw [List.foldl_cons, List.flatten_cons, ih (feed s r) (feed_buf_not_mem s r h),
      feed_append]

/-- Split invariance: the chunk sequence depends only on the concatenation
of the reads, not on where the read boundaries fall. -/
theorem handleStreamResponse_flatten (reads : List Chars) :
    handleStreamResponse reads = handleStreamResponse [reads.flatten] := by
  unfold handleStreamResponse
  rw [foldl_feed_flatten reads _ (by simp)]
  simp [List.foldl, feed_nil]

/-- C1: for every way of splitting the stream bytes into successive reads,
`handleStreamResponse` delivers the same chunk sequence as a single read
(so a trailing incomplete line is held back rather than parsed early);
on the §8 example it delivers exactly `"Hel"` then `"lo"`; blank and
JSON-malformed lines are skipped and input after `data: [DONE]` is never
processed (`exStopStream`); and a final complete non-`[DONE]` `data: `
frame without a trailing newline is flushed after the upstream closes
(`exFlushStream`). -/
theorem C1_streaming_parse :
    (∀ reads : List Chars, handleStreamResponse reads = handleStreamResponse [reads.flatten]) ∧
    (∀ reads : List Chars, reads.flatten = ex8Stream →
       handleStreamResponse reads = helLoChunks) ∧
    (∀ reads : List Chars, reads.flatten = exStopStream →
       handleStreamResponse reads = helLoChunks) ∧
    (∀ reads : List Chars, reads.flatten = exFlushStream →
       handleStreamResponse reads = helLoChunks) := by
  refine ⟨handleStreamResponse_flatten, ?_, ?_, ?_⟩ <;>
    · intro reads h
      rw [handleStreamResponse_flatten, h]
      rfl

/-- Witness for C1: the §8 stream split mid-line into two reads. -/
theorem C1_streaming_parse_witness :
    ([ex8Stream.take 25, ex8Stream.drop 25] : List (List Char)).flatten = ex8Stream ∧
    handleStreamResponse [ex8Stream.take 25, ex8Stream.drop 25] = helLoChunks :=
  ⟨by simp, C1_streaming_parse.2.1 [ex8Stream.take 25, ex8Stream.drop 25] (by simp)⟩

/-! ## Lemmas: no empty chunk is ever delivered -/

theorem emitOf_truthy (v c : JsonValue) (h : emitOf v = some c) : truthy c = true := by
  unfold emitOf at h
  by_cases ht : truthy (extractStreamContent v) = true
  · simp only [ht, if_true] at h
    cases h
    exact ht
  · simp [ht] at h

theorem procLine_emit (l : Chars) (c : JsonValue) (h : procLine l = .emit c) :
    ∃ v, emitOf v = some c := by
  unfold procLine at h
  by_cases h1 : trimChars l = []
  · simp [h1] at h
  · by_cases h2 : dataMark.isPrefixOf (trimChars l) = true
    · by_cases h3 : (trimChars l).drop 6 = doneMark
      · simp [h1, h2, h3] at h
      · cases hp : parseJson ((trimChars l).drop 6) with
        | none => simp [h1, h2, h3, hp] at h
        | some v =>
          cases he : emitOf v with
          | none => simp [h1, h2, h3, hp, he] at h
          | some c0 =>
            refine ⟨v, ?_⟩
            rw [he]
            simp [h1, h2, h3, hp, he] at h
            rw [h]
    · simp [h1, h2] at h

theorem stepLine_out_truthy (s : PState) (l : Chars)
    (h : ∀ c ∈ s.out, truthy c = true) :
    ∀ c ∈ (stepLine s l).out, truthy c = true := by
  unfold stepLine
  by_cases hd : s.done = true
  · simpa [hd] using h
  · cases hm : procLine l with
    | stop => simpa [hd, hm] using h
    | skip => simpa [hd, hm] using h
    | emit c0 =>
      simp only [hd, hm, if_false, Bool.false_eq_true]
      intro c hc
      rcases List.mem_append.mp hc with h1 | h2
      · exact h c h1
      · have hcc : c = c0 := by simpa using h2
        obtain ⟨v, hv⟩ := procLine_emit l c0 hm
        exact hcc ▸ emitOf_truthy v c0 hv

theorem procLines_out_truthy (ls : List Chars) :
    ∀ s : PState, (∀ c ∈ s.out, truthy c = true) →
      ∀ c ∈ (procLines s ls).out, truthy c = true := by
  induction ls with
  | nil => intro s h; exact h
  | cons l ls ih =>
    intro s h
    exact ih (stepLine s l) (stepLine_out_truthy s l h)

theorem feed_out_truthy (s : StState) (a : Chars)
    (h : ∀ c ∈ s.st.out, truthy c = true) :
    ∀ c ∈ (feed s a).st.out, truthy c = true := by
  unfold feed
  by_cases hd : s.st.done = true
  · simpa [hd] using h
  · by_cases h2 : (procLines s.st (linesOf (s.buf ++ a)).1).done = true <;>
      simpa [hd, h2] using procLines_out_truthy (linesOf (s.buf ++ a)).1 s.st h

theorem foldl_feed_out_truthy (reads : List Chars) :
    ∀ s : StState, (∀ c ∈ s.st.out, truthy c = true) →
      ∀ c ∈ (List.foldl feed s reads).st.out, truthy c = true := by
  induction reads with
  | nil => intro s h; exact h
  | cons r rs ih =>
    intro s h
    exact ih (feed s r) (feed_out_truthy s r h)

theorem finishStream_truthy (s : StState)
    (h : ∀ c ∈ s.st.out, truthy c = true) :
    ∀ c ∈ finishStream s, truthy c = true := by
  unfold finishStream
  by_cases hd : s.st.done = true
  · simpa [hd] using h
  · by_cases h2 : dataMark.isPrefixOf (trimChars s.buf) = true
    · by_cases h3 : (trimChars s.buf).drop 6 = doneMark
      · simpa [hd, h2, h3] using h
      · cases hp : parseJson ((trimChars s.buf).drop 6) with
        | none => simpa [hd, h2, h3, hp] using h
        | some v =>
          cases he : emitOf v with
          | none => simpa [hd, h2, h3, hp, he] using h
          | some c0 =>
            simp only [hd, h2, h3, hp, he, if_false, if_true, Bool.false_eq_true]
            intro c hc
            rcases List.mem_append.mp hc with hm1 | hm2
            · exact h c hm1
            · have hcc : c = c0 := by simpa using hm2
              exact hcc ▸ emitOf_truthy v c0 he
    · simpa [hd, h2] using h

/-- C10: the chunk callback is never invoked with a falsy value (in
particular never with the empty string), and a frame whose parsed JSON
yields neither a truthy `choices[0].delta.content` nor a truthy
`delta.text` produces no delivery at all. -/
theorem C10_no_empty_chunk :
    (∀ (reads : List Chars) (c : JsonValue),
       c ∈ handleStreamResponse reads → truthy c = true) ∧
    (∀ reads : List Chars, JsonValue.str [] ∉ handleStreamResponse reads) ∧
    (∀ v : JsonValue,
       (∀ cv, deltaContent v = some cv → truthy cv = false) →
       (∀ tv, deltaText v = some tv → truthy tv = false) →
       emitOf v = none) := by
  have h1 : ∀ (reads : List Chars) (c : JsonValue),
      c ∈ handleStreamResponse reads → truthy c = true := by
    intro reads c hc
    exact finishStream_truthy _
      (foldl_feed_out_truthy reads ⟨[], ⟨false, []⟩⟩ (by intro c hc2; cases hc2)) c hc
  refine ⟨h1, ?_, ?_⟩
  · intro reads hmem
    have := h1 reads (JsonValue.str []) hmem
    simp [truthy] at this
  · intro v hcv htv
    have hext : extractStreamContent v = JsonValue.str [] := by
      unfold extractStreamContent
      cases hc : deltaContent v with
      | some cv =>
        cases ht : deltaText v with
        | some tv => simp [hcv cv hc, htv tv ht]
        | none => simp [hcv cv hc]
      | none =>
        cases ht : deltaText v with
        | some tv => simp [htv tv ht]
        | none => simp
    unfold emitOf
    rw [hext]
    simp [truthy]

/-- Witness for C10: the first emitted chunk of the §8 stream is truthy, and
a frame with no delta at all yields no delivery. -/
theorem C10_no_empty_chunk_witness :
    truthy (JsonValue.str ("Hel").toList) = true ∧
    emitOf (JsonValue.obj []) = none := by
  constructor
  · apply C10_no_empty_chunk.1 [ex8Stream]
    have h : handleStreamResponse [ex8Stream] = helLoChunks := rfl
    rw [h]
    exact .head _
  · exact C10_no_empty_chunk.2.2 (JsonValue.obj [])
      (fun _cv hcv => Option.noConfusion hcv)
      (fun _tv htv => Option.noConfusion htv)

/-! ## Lemmas: retry dispatch -/

theorem classifyError_server (status : Nat) (hdr : Option Nat) (h : 500 ≤ status) :
    classifyError status hdr =
      ⟨"AI provider service error. Please try again later.", .server, some status, none⟩ := by
  have h1 : ¬ status = 401 := by omega
  have h2 : ¬ status = 403 := by omega
  have h3 : ¬ status = 429 := by omega
  simp [classifyError, h1, h2, h3, h]

theorem classifyError_unknown (status : Nat) (hdr : Option Nat)
    (h1 : ¬ status = 401) (h2 : ¬ status = 403) (h3 : ¬ status = 429)
    (h4 : status < 500) :
    classifyError status hdr = ⟨"API error", .unknown, some status, none⟩ := by
  have h5 : ¬ 500 ≤ status := by omega
  simp [classifyError, h1, h2, h3, h5]

theorem makeRequestAux_retry_step (f : Nat → FetchResult) (rem attempt : Nat)
    (le : Option APIErr) (hr : retriable (f attempt) = true)
    (ha : ¬ attempt = MAX_RETRIES - 1) :
    makeRequestAux f (rem + 1) attempt le =
      makeRequestAux f rem (attempt + 1) (some (classifyFetch (f attempt))) := by
  cases hf : f attempt with
  | ok => simp [retriable, hf] at hr
  | httpErr s hdr =>
    have h5 : 500 ≤ s := by simpa [retriable, hf] using hr
    simp [makeRequestAux, hf, classifyFetch, classifyError_server s hdr h5, ha]
  | abortErr => simp [makeRequestAux, hf, classifyFetch, ha]
  | netErr => simp [makeRequestAux, hf, classifyFetch, ha]

theorem makeRequestAux_last (f : Nat → FetchResult) (rem : Nat) (le : Option APIErr)
    (hr : retriable (f 2) = true) :
    makeRequestAux f (rem + 1) 2 le = .failure (classifyFetch (f 2)) 3 := by
  cases hf : f 2 with
  | ok => simp [retriable, hf] at hr
  | httpErr s hdr =>
    have h5 : 500 ≤ s := by simpa [retriable, hf] using hr
    simp [makeRequestAux, hf, classifyFetch, classifyError_server s hdr h5, MAX_RETRIES]
  | abortErr => simp [makeRequestAux, hf, classifyFetch, MAX_RETRIES]
  | netErr => simp [makeRequestAux, hf, classifyFetch, MAX_RETRIES]

/-- C2: retry policy of `makeRequest`.  `[503, 503, 200]` makes exactly 3
fetch attempts and succeeds; a single 401/403 makes exactly 1 attempt and
throws the `auth`-typed error; a single 429 makes exactly 1 attempt and
throws the `rate_limit`-typed error carrying the parsed `retry-after`
header; retriable failures (5xx, timeout abort, transport error) on
attempts 0 and 1 lead to a third attempt whose success is returned, and
three retriable failures exhaust the budget and throw the error classified
from the last attempt. -/
theorem C2_makeRequest_retry_policy :
    (makeRequest seq503 = .success 3) ∧
    (∀ hdr, makeRequest (fun _ => .httpErr 401 hdr) = .failure (classifyError 401 hdr) 1 ∧
       (classifyError 401 hdr).etype = .auth) ∧
    (∀ hdr, makeRequest (fun _ => .httpErr 403 hdr) = .failure (classifyError 403 hdr) 1 ∧
       (classifyError 403 hdr).etype = .auth) ∧
    (∀ hdr, makeRequest (fun _ => .httpErr 429 hdr) = .failure (classifyError 429 hdr) 1 ∧
       (classifyError 429 hdr).etype = .rate_limit ∧
       (classifyError 429 hdr).retryAfter = hdr) ∧
    (∀ f, retriable (f 0) = true → retriable (f 1) = true → f 2 = .ok →
       makeRequest f = .success 3) ∧
    (∀ f, retriable (f 0) = true → retriable (f 1) = true → retriable (f 2) = true →
       makeRequest f = .failure (classifyFetch (f 2)) 3) := by
  refine ⟨rfl, fun hdr => ⟨rfl, rfl⟩, fun hdr => ⟨rfl, rfl⟩,
    fun hdr => ⟨rfl, rfl, rfl⟩, ?_, ?_⟩
  · intro f h0 h1 h2
    unfold makeRequest
    calc makeRequestAux f MAX_RETRIES 0 none
        = makeRequestAux f 2 1 (some (classifyFetch (f 0))) :=
          makeRequestAux_retry_step f 2 0 none h0 (by decide)
      _ = makeRequestAux f 1 2 (some (classifyFetch (f 1))) :=
          makeRequestAux_retry_step f 1 1 _ h1 (by decide)
      _ = .success 3 := by simp [makeRequestAux, h2]
  · intro f h0 h1 h2
    unfold makeRequest
    calc makeRequestAux f MAX_RETRIES 0 none
        = makeRequestAux f 2 1 (some (classifyFetch (f 0))) :=
          makeRequestAux_retry_step f 2 0 none h0 (by decide)
      _ = makeRequestAux f 1 2 (some (classifyFetch (f 1))) :=
          makeRequestAux_retry_step f 1 1 _ h1 (by decide)
      _ = .failure (classifyFetch (f 2)) 3 := makeRequestAux_last f 0 _ h2

/-- Witness for C2: the `[503, 503, 200]` schedule and an all-transport
failure schedule, at concrete inputs. -/
theorem C2_makeRequest_retry_policy_witness :
    (retriable (seq503 0) = true ∧ retriable (seq503 1) = true ∧ seq503 2 = .ok ∧
       makeRequest seq503 = .success 3) ∧
    makeRequest (fun _ => .netErr) = .failure networkErr 3 :=
  ⟨⟨rfl, rfl, rfl, C2_makeRequest_retry_policy.2.2.2.2.1 seq503 rfl rfl rfl⟩,
   C2_makeRequest_retry_policy.2.2.2.2.2 (fun _ => .netErr) rfl rfl rfl⟩

/-- Counterexample for C3: a 404 response is retried, not surfaced after one
attempt; the code makes 3 fetch attempts before throwing the
`unknown`-typed error. -/
theorem C3_unknown_not_retried_counterexample :
    attemptsOf (makeRequest (fun _ => .httpErr 404 none)) = 3 ∧
    ¬ attemptsOf (makeRequest (fun _ => .httpErr 404 none)) = 1 ∧
    (errOf (makeRequest (fun _ => .httpErr 404 none))).map (fun e => e.etype) =
      some .unknown :=
  ⟨rfl, by decide, rfl⟩

/-- C3 (amended): a response whose status classifies as `unknown` (non-ok,
not 401/403/429, below 500) is retried like a server error: `makeRequest`
performs 3 fetch attempts and then throws the `unknown`-typed `APIError`
classified from the status. -/
theorem C3_unknown_status_retried (status : Nat) (hdr : Option Nat)
    (h1 : ¬ status = 401) (h2 : ¬ status = 403) (h3 : ¬ status = 429)
    (h4 : status < 500) :
    makeRequest (fun _ => .httpErr status hdr) =
      .failure (classifyError status hdr) 3 ∧
    (classifyError status hdr).etype = .unknown := by
  have hu := classifyError_unknown status hdr h1 h2 h3 h4
  constructor
  · unfold makeRequest
    rw [show MAX_RETRIES = 2 + 1 from rfl]
    simp [makeRequestAux, hu, MAX_RETRIES]
  · rw [hu]

/-- Witness for C3's amended claim at status 404. -/
theorem C3_unknown_status_retried_witness :
    makeRequest (fun _ => .httpErr 404 none) = .failure (classifyError 404 none) 3 ∧
    (classifyError 404 none).etype = .unknown :=
  C3_unknown_status_retried 404 none (by decide) (by decide) (by decide) (by decide)

/-! ## Live selection claims -/

/-- C8: `setSelection` with content that trims to empty behaves exactly
like `clearSelection` (same slot update and the same notification count);
`clearSelection` on an empty slot is a no-op with no notification, and on a
non-empty slot (with a callback registered) it empties the slot and fires
the callback exactly once. -/
theorem C8_setSelection_empty_clears (st : LiveSelState) (content : Chars)
    (sourcePath : Option Chars) (now : Nat) (h : trimChars content = []) :
    setSelection st content sourcePath now = clearSelection st ∧
    (st.currentSelection = none → clearSelection st = (st, 0)) ∧
    (∀ sel, st.currentSelection = some sel → st.hasCallback = true →
       clearSelection st = ({ st with currentSelection := none }, 1)) := by
  refine ⟨?_, ?_, ?_⟩
  · simp [setSelection, h]
  · intro hnone
    cases st with
    | mk cur cb => cases hnone; rfl
  · intro sel hsel hcb
    simp [clearSelection, hsel, notifyCount, hcb]

/-- Witness for C8: clearing the selection `"hi"` via `setSelection "   "`
with a registered callback. -/
theorem C8_setSelection_empty_clears_witness :
    trimChars (("   ").toList) = [] ∧
    (setSelection ⟨some ⟨("hi").toList, none, 0⟩, true⟩ (("   ").toList) none 7 =
       clearSelection ⟨some ⟨("hi").toList, none, 0⟩, true⟩) ∧
    clearSelection ⟨some ⟨("hi").toList, none, 0⟩, true⟩ =
      (⟨none, true⟩, 1) := by
  have h := C8_setSelection_empty_clears ⟨some ⟨("hi").toList, none, 0⟩, true⟩
    (("   ").toList) none 7 (by decide)
  exact ⟨by decide, h.1, h.2.2 ⟨("hi").toList, none, 0⟩ rfl rfl⟩

/-- Counterexample for C9: with stored content `"abcd"` and `maxLength = 2`,
`getPreview` returns `"..."`, whose length is 3, not 2. -/
theorem C9_getPreview_counterexample :
    getPreview ⟨some ⟨("abcd").toList, none, 0⟩, true⟩ 2 = ("...").toList ∧
    ¬ (getPreview ⟨some ⟨("abcd").toList, none, 0⟩, true⟩ 2).length = 2 :=
  ⟨rfl, by decide⟩

/-- C9 (amended): `getPreview(maxLength)` returns the full stored content
when it fits; otherwise it returns the first `maxLength - 3` characters
(clamped at zero) followed by `"..."`, which has length exactly `maxLength`
whenever `maxLength ≥ 3`. -/
theorem C9_getPreview_truncation (st : LiveSelState) (sel : LiveSelection)
    (maxLength : Nat) (h : st.currentSelection = some sel) :
    (sel.content.length ≤ maxLength → getPreview st maxLength = sel.content) ∧
    (maxLength < sel.content.length →
       getPreview st maxLength =
         sel.content.take (maxLength - 3) ++ ('.' :: '.' :: '.' :: []) ∧
       (3 ≤ maxLength → (getPreview st maxLength).length = maxLength)) := by
  constructor
  · intro hle
    simp [getPreview, h, hle]
  · intro hgt
    have hnle : ¬ sel.content.length ≤ maxLength := by omega
    constructor
    · simp [getPreview, h, hnle]
    · intro h3
      have htake : (sel.content.take (maxLength - 3)).length = maxLength - 3 := by
        rw [List.length_take]
        omega
      simp [getPreview, h, hnle, htake]
      omega

/-- Witness for C9's amended claim: content `"abcde"` with `maxLength = 4`
gives `"a..."` of length 4, and `maxLength = 5` returns it in full. -/
theorem C9_getPreview_truncation_witness :
    (getPreview ⟨some ⟨("abcde").toList, none, 0⟩, true⟩ 5 = ("abcde").toList) ∧
    (getPreview ⟨some ⟨("abcde").toList, none, 0⟩, true⟩ 4 = ("a...").toList ∧
       (getPreview ⟨some ⟨("abcde").toList, none, 0⟩, true⟩ 4).length = 4) := by
  have h5 := C9_getPreview_truncation ⟨some ⟨("abcde").toList, none, 0⟩, true⟩
    ⟨("abcde").toList, none, 0⟩ 5 rfl
  have h4 := C9_getPreview_truncation ⟨some ⟨("abcde").toList, none, 0⟩, true⟩
    ⟨("abcde").toList, none, 0⟩ 4 rfl
  refine ⟨h5.1 (by decide), ?_, (h4.2 (by decide)).2 (by decide)⟩
  have := (h4.2 (by decide)).1
  simpa using this

/-! ## Lemmas: findFirst -/

theorem findFirst_eq_none {α} {p : α → Bool} {l : List α}
    (h : ∀ x ∈ l, ¬ p x = true) : findFirst p l = none := by
  induction l with
  | nil => rfl
  | cons x xs ih =>
    have hx : ¬ p x = true := h x (List.mem_cons_self x xs)
    simp [findFirst, hx, ih (fun y hy => h y (List.mem_cons_of_mem x hy))]

theorem findFirst_some {α} {p : α → Bool} :
    ∀ {l : List α} {i : Nat} {x : α},
      findFirst p l = some (i, x) → l[i]? = some x ∧ p x = true := by
  intro l
  induction l with
  | nil => intro i x h; cases h
  | cons y ys ih =>
    intro i x h
    by_cases hy : p y = true
    · simp only [findFirst, hy, if_true] at h
      cases h
      exact ⟨by simp, hy⟩
    · simp only [findFirst, hy, if_false, Bool.false_eq_true] at h
      cases hf : findFirst p ys with
      | none => rw [hf] at h; cases h
      | some q =>
        rw [hf] at h
        cases h
        obtain ⟨h1, h2⟩ := ih hf
        exact ⟨by simpa using h1, h2⟩

theorem eraseIdx_eq_filter_of_unique {α} (pq : α → Bool) :
    ∀ (l : List α) (i : Nat) (x : α),
      findFirst pq l = some (i, x) →
      l.Pairwise (fun a b => ¬ (pq a = true ∧ pq b = true)) →
      l.eraseIdx i = l.filter (fun a => ! pq a) := by
  intro l
  induction l with
  | nil => intro i x h; cases h
  | cons y ys ih =>
    intro i x h hpw
    rcases List.pairwise_cons.mp hpw with ⟨hhead, htail⟩
    by_cases hy : pq y = true
    · simp only [findFirst, hy, if_true] at h
      cases h
      have hrest : ys.filter (fun a => ! pq a) = ys := by
        rw [List.filter_eq_self]
        intro a ha
        have := hhead a ha
        simp only [Bool.not_eq_true']
        by_cases hpa : pq a = true
        · exact absurd ⟨hy, hpa⟩ this
        · simpa using hpa
      simp [List.eraseIdx, List.filter, hy, hrest]
    · simp only [findFirst, hy, if_false, Bool.false_eq_true] at h
      cases hf : findFirst pq ys with
      | none => rw [hf] at h; cases h
      | some q =>
        rw [hf] at h
        cases h
        have := ih q.1 q.2 (by simpa using hf) htail
        simp [List.eraseIdx, List.filter, hy, this]

/-- C7: `deleteProvider(id)` returns `false` and leaves the state unchanged
when no provider has this id; on success it removes exactly the (unique)
provider with this id, removes exactly the models whose `providerId` is
`id`, and keeps every other provider and model. -/
theorem C7_deleteProvider_cascade :
    (∀ st id, (∀ p ∈ st.providers, ¬ p.id = id) → deleteProvider st id = (st, false)) ∧
    (∀ st id i prov,
       findFirst (fun p => p.id = id) st.providers = some (i, prov) →
       (deleteProvider st id).2 = true ∧
       (deleteProvider st id).1.providers = st.providers.eraseIdx i ∧
       (deleteProvider st id).1.models =
         st.models.filter (fun m => ¬ m.providerId = id) ∧
       (∀ m ∈ (deleteProvider st id).1.models, ¬ m.providerId = id) ∧
       (∀ m ∈ st.models, ¬ m.providerId = id → m ∈ (deleteProvider st id).1.models) ∧
       (st.providers.Pairwise (fun a b => ¬ a.id = b.id) →
          (deleteProvider st id).1.providers =
            st.providers.filter (fun p => ¬ p.id = id))) := by
  constructor
  · intro st id h
    have hf : findFirst (fun p => p.id = id) st.providers = none :=
      findFirst_eq_none (by intro x hx; simpa using h x hx)
    simp [deleteProvider, hf]
  · intro st id i prov hf
    have hdel :
        deleteProvider st id =
          ({ providers := st.providers.eraseIdx i,
             models := st.models.filter (fun m => ¬ m.providerId = id) }, true) := by
      simp [deleteProvider, hf]
    refine ⟨by rw [hdel], by rw [hdel], by rw [hdel], ?_, ?_, ?_⟩
    · intro m hm
      rw [hdel] at hm
      have := List.of_mem_filter hm
      simpa using this
    · intro m hm hmid
      rw [hdel]
      exact List.mem_filter.mpr ⟨hm, by simpa using hmid⟩
    · intro hpw
      rw [hdel]
      have huniq : st.providers.Pairwise
          (fun a b => ¬ ((fun p => (p.id = id : Bool)) a = true ∧
                         (fun p => (p.id = id : Bool)) b = true)) := by
        refine hpw.imp ?_
        intro a b hab ⟨ha, hb⟩
        have ha2 : a.id = id := by simpa using ha
        have hb2 : b.id = id := by simpa using hb
        exact hab (ha2.trans hb2.symm)
      have := eraseIdx_eq_filter_of_unique (fun p => (p.id = id : Bool))
        st.providers i prov hf huniq
      rw [this]
      apply List.filter_congr
      intro a _
      simp [decide_not]

/-- Witness for C7: deleting provider `"p1"` from a two-provider registry
removes it and its model, keeping the other provider and model. -/
theorem C7_deleteProvider_cascade_witness :
    (deleteProvider
       ⟨[⟨("p1").toList, ("A").toList, ("u").toList, ("k").toList, true, .openai⟩,
         ⟨("p2").toList, ("B").toList, ("u").toList, ("k").toList, true, .custom⟩],
        [⟨("m1").toList, ("M1").toList, ("p1").toList, ("g").toList, false⟩,
         ⟨("m2").toList, ("M2").toList, ("p2").toList, ("g").toList, true⟩]⟩
       (("p1").toList)).2 = true ∧
    (deleteProvider
       ⟨[⟨("p1").toList, ("A").toList, ("u").toList, ("k").toList, true, .openai⟩,
         ⟨("p2").toList, ("B").toList, ("u").toList, ("k").toList, true, .custom⟩],
        [⟨("m1").toList, ("M1").toList, ("p1").toList, ("g").toList, false⟩,
         ⟨("m2").toList, ("M2").toList, ("p2").toList, ("g").toList, true⟩]⟩
       (("p1").toList)).1.providers =
      [⟨("p2").toList, ("B").toList, ("u").toList, ("k").toList, true, .custom⟩] ∧
    (deleteProvider
       ⟨[⟨("p1").toList, ("A").toList, ("u").toList, ("k").toList, true, .openai⟩,
         ⟨("p2").toList, ("B").toList, ("u").toList, ("k").toList, true, .custom⟩],
        [⟨("m1").toList, ("M1").toList, ("p1").toList, ("g").toList, false⟩,
         ⟨("m2").toList, ("M2").toList, ("p2").toList, ("g").toList, true⟩]⟩
       (("p1").toList)).1.models =
      [⟨("m2").toList, ("M2").toList, ("p2").toList, ("g").toList, true⟩] := by
  have h := C7_deleteProvider_cascade.2
    ⟨[⟨("p1").toList, ("A").toList, ("u").toList, ("k").toList, true, .openai⟩,
      ⟨("p2").toList, ("B").toList, ("u").toList, ("k").toList, true, .custom⟩],
     [⟨("m1").toList, ("M1").toList, ("p1").toList, ("g").toList, false⟩,
      ⟨("m2").toList, ("M2").toList, ("p2").toList, ("g").toList, true⟩]⟩
    (("p1").toList) 0
    ⟨("p1").toList, ("A").toList, ("u").toList, ("k").toList, true, .openai⟩
    (by decide)
  obtain ⟨hsucc, hprov, hmod, -⟩ := h
  exact ⟨hsucc, by rw [hprov]; decide, by rw [hmod]; decide⟩

/-! ## Lemmas: default-model counting -/

theorem findFirst_lt_length {α} {p : α → Bool} :
    ∀ {l : List α} {i : Nat} {x : α}, findFirst p l = some (i, x) → i < l.length := by
  intro l
  induction l with
  | nil => intro i x h; cases h
  | cons y ys ih =>
    intro i x h
    by_cases hy : p y = true
    · simp only [findFirst, hy, if_true] at h
      cases h
      simp
    · simp only [findFirst, hy, if_false, Bool.false_eq_true] at h
      cases hf : findFirst p ys with
      | none => rw [hf] at h; cases h
      | some q =>
        rw [hf] at h
        cases h
        have := ih hf
        simp
        omega

theorem countP_set_of_countP_zero {α} (p : α → Bool) :
    ∀ (l : List α) (i : Nat) (v : α), l.countP p = 0 → i < l.length →
      (l.set i v).countP p = if p v then 1 else 0 := by
  intro l
  induction l with
  | nil => intro i v _ hi; simp at hi
  | cons x xs ih =>
    intro i v h hi
    rw [List.countP_cons] at h
    cases i with
    | zero =>
      simp only [List.set, List.countP_cons]
      omega
    | succ j =>
      simp only [List.set, List.countP_cons]
      rw [ih j v (by omega) (by simpa using hi)]
      omega

theorem countP_set_le {α} (p : α → Bool) :
    ∀ (l : List α) (i : Nat) (v x : α), l[i]? = some x →
      (p v = true → p x = true) → (l.set i v).countP p ≤ l.countP p := by
  intro l
  induction l with
  | nil => intro i v x h _; cases h
  | cons y ys ih =>
    intro i v x h himp
    cases i with
    | zero =>
      have hyx : y = x := by simpa using h
      subst hyx
      simp only [List.set, List.countP_cons]
      by_cases hv : p v = true
      · simp [hv, himp hv]
      · simp only [hv, if_false, Bool.false_eq_true]
        omega
    | succ j =>
      simp only [List.set, List.countP_cons]
      have := ih j v x (by simpa using h) himp
      omega

theorem defaultCount_clear (models : List AIModel) :
    (models.map (fun x => { x with isDefault := false })).countP
      (fun m => m.isDefault) = 0 := by
  rw [List.countP_map]
  simp [Function.comp]

theorem setDefaultModel_cases (st : SettingsState) (id : Chars) :
    ((setDefaultModel st id).2 = false → (setDefaultModel st id).1 = st) ∧
    ((setDefaultModel st id).2 = true →
       defaultCount (setDefaultModel st id).1 = 1) := by
  cases hf : findFirst (fun m => m.id = id) st.models with
  | none => simp [setDefaultModel, hf]
  | some q =>
    obtain ⟨i, m⟩ := q
    have hi : i < st.models.length := findFirst_lt_length hf
    constructor
    · intro hfalse
      simp [setDefaultModel, hf] at hfalse
    · intro _
      have hz := defaultCount_clear st.models
      have hset := countP_set_of_countP_zero (fun m => m.isDefault)
        (st.models.map (fun x => { x with isDefault := false })) i
        { m with isDefault := true } hz (by simpa using hi)
      simp [setDefaultModel, hf, defaultCount, hset]

theorem addModel_defaultCount (st : SettingsState) (m : NewModel) (newId : Chars)
    (h : defaultCount st ≤ 1) : defaultCount (addModel st m newId).1 ≤ 1 := by
  unfold addModel
  by_cases h1 : validateModel m.name m.providerId m.modelIdentifier ≠ []
  · simpa [if_pos h1] using h
  · rw [if_neg h1]
    by_cases h2 : ¬ st.providers.any (fun p => p.id = m.providerId) = true
    · rw [if_pos h2]
      exact h
    · rw [if_neg h2]
      by_cases h3 : m.isDefault = true
      · simp [h3, defaultCount, List.countP_append, defaultCount_clear]
      · have h3f : m.isDefault = false := by simpa using h3
        simp only [h3f, Bool.false_eq_true, if_false, defaultCount,
          List.countP_append]
        simp only [defaultCount] at h
        simp [h3f]
        omega

theorem updateModel_defaultCount (st : SettingsState) (id : Chars)
    (u : ModelUpdates) (h : defaultCount st ≤ 1) :
    defaultCount (updateModel st id u).1 ≤ 1 := by
  unfold updateModel
  cases hf : findFirst (fun m => m.id = id) st.models with
  | none => simpa [hf] using h
  | some q =>
    obtain ⟨i, old⟩ := q
    have hi : i < st.models.length := findFirst_lt_length hf
    have hget : st.models[i]? = some old := (findFirst_some hf).1
    by_cases h1 : validateModel (applyUpdates old u).name (applyUpdates old u).providerId
        (applyUpdates old u).modelIdentifier ≠ []
    · simpa [hf, h1] using h
    · by_cases h2 : providerMissingFor st u.providerId = true
      · simpa [hf, h1, h2] using h
      · by_cases h3 : u.isDefault.getD false = true
        · have hupd : (applyUpdates old u).isDefault = true := by
            cases hu : u.isDefault with
            | none => rw [hu] at h3; simp at h3
            | some b =>
              rw [hu] at h3
              simp only [Option.getD] at h3
              simp [applyUpdates, hu, h3]
          have hz := defaultCount_clear st.models
          have hset := countP_set_of_countP_zero (fun m => m.isDefault)
            (st.models.map (fun x => { x with isDefault := false })) i
            (applyUpdates old u) hz (by simpa using hi)
          simp [hf, h1, h2, h3, defaultCount, hset, hupd]
        · have himp : (applyUpdates old u).isDefault = true → old.isDefault = true := by
            intro hup
            cases hu : u.isDefault with
            | none => simpa [applyUpdates, hu] using hup
            | some b =>
              rw [hu] at h3
              simp only [Option.getD] at h3
              simp only [applyUpdates, hu, Option.getD] at hup
              rw [hup] at h3
              cases h3 rfl
          have hle := countP_set_le (fun m => m.isDefault) st.models i
            (applyUpdates old u) old hget himp
          simp only [hf, h1, h2, h3, if_neg, ite_false, Bool.false_eq_true]
          simp only [defaultCount] at *
          omega

/-- C5: `setDefaultModel(id)` returns `false` and leaves the registry
unchanged when no model has this id; on success exactly one model is
default afterwards and it carries the requested id; and starting from a
registry with at most one default, any sequence of `setDefaultModel`,
`addModel`, `updateModel` operations leaves at most one default. -/
theorem C5_setDefaultModel_unique :
    (∀ st id, (∀ m ∈ st.models, ¬ m.id = id) → setDefaultModel st id = (st, false)) ∧
    (∀ st id, (setDefaultModel st id).2 = true →
       defaultCount (setDefaultModel st id).1 = 1 ∧
       (∀ m ∈ (setDefaultModel st id).1.models, m.isDefault = true → m.id = id)) ∧
    (∀ (ops : List RegistryOp) (st : SettingsState), defaultCount st ≤ 1 →
       defaultCount (List.foldl applyOp st ops) ≤ 1) := by
  refine ⟨?_, ?_, ?_⟩
  · intro st id h
    have hf : findFirst (fun m => m.id = id) st.models = none :=
      findFirst_eq_none (by intro x hx; simpa using h x hx)
    simp [setDefaultModel, hf]
  · intro st id hsucc
    refine ⟨(setDefaultModel_cases st id).2 hsucc, ?_⟩
    intro m hm hdef
    cases hf : findFirst (fun x => x.id = id) st.models with
    | none => simp [setDefaultModel, hf] at hsucc
    | some q =>
      obtain ⟨i, tgt⟩ := q
      have htgt : tgt.id = id := by simpa using (findFirst_some hf).2
      simp only [setDefaultModel, hf] at hm
      rcases List.mem_or_eq_of_mem_set hm with hmem | heq
      · obtain ⟨y, _, hy⟩ := List.mem_map.mp hmem
        rw [← hy] at hdef
        simp at hdef
      · rw [heq] at hdef ⊢
        exact htgt
  · intro ops
    induction ops with
    | nil => intro st h; exact h
    | cons op ops ih =>
      intro st h
      rw [List.foldl_cons]
      refine ih (applyOp st op) ?_
      cases op with
      | setDef id =>
        by_cases hs : (setDefaultModel st id).2 = true
        · have := (setDefaultModel_cases st id).2 hs
          simpa [applyOp] using this.le
        · have := (setDefaultModel_cases st id).1 (by simpa using hs)
          simpa [applyOp, this] using h
      | add m newId => exact addModel_defaultCount st m newId h
      | update id u => exact updateModel_defaultCount st id u h

/-- Witness for C5: on a two-model registry with `m1` default,
`setDefaultModel "m2"` succeeds, leaves exactly one default, and that
default is `m2`; a short op sequence keeps the invariant. -/
theorem C5_setDefaultModel_unique_witness :
    (setDefaultModel
       ⟨[⟨("p1").toList, ("A").toList, ("u").toList, ("k").toList, true, .openai⟩],
        [⟨("m1").toList, ("M1").toList, ("p1").toList, ("g").toList, true⟩,
         ⟨("m2").toList, ("M2").toList, ("p1").toList, ("h").toList, false⟩]⟩
       (("m2").toList)).2 = true ∧
    defaultCount
      (setDefaultModel
         ⟨[⟨("p1").toList, ("A").toList, ("u").toList, ("k").toList, true, .openai⟩],
          [⟨("m1").toList, ("M1").toList, ("p1").toList, ("g").toList, true⟩,
           ⟨("m2").toList, ("M2").toList, ("p1").toList, ("h").toList, false⟩]⟩
         (("m2").toList)).1 = 1 ∧
    defaultCount
      (List.foldl applyOp
         ⟨[⟨("p1").toList, ("A").toList, ("u").toList, ("k").toList, true, .openai⟩],
          [⟨("m1").toList, ("M1").toList, ("p1").toList, ("g").toList, true⟩,
           ⟨("m2").toList, ("M2").toList, ("p1").toList, ("h").toList, false⟩]⟩
         [.setDef (("m2").toList), .setDef (("zz").toList),
          .update (("m1").toList) ⟨none, none, none, some true⟩]) ≤ 1 := by
  refine ⟨by decide, ?_, ?_⟩
  · exact (C5_setDefaultModel_unique.2.1
      ⟨[⟨("p1").toList, ("A").toList, ("u").toList, ("k").toList, true, .openai⟩],
       [⟨("m1").toList, ("M1").toList, ("p1").toList, ("g").toList, true⟩,
        ⟨("m2").toList, ("M2").toList, ("p1").toList, ("h").toList, false⟩]⟩
      (("m2").toList) (by decide)).1
  · exact C5_setDefaultModel_unique.2.2
      [.setDef (("m2").toList), .setDef (("zz").toList),
       .update (("m1").toList) ⟨none, none, none, some true⟩]
      ⟨[⟨("p1").toList, ("A").toList, ("u").toList, ("k").toList, true, .openai⟩],
       [⟨("m1").toList, ("M1").toList, ("p1").toList, ("g").toList, true⟩,
        ⟨("m2").toList, ("M2").toList, ("p1").toList, ("h").toList, false⟩]⟩
      (by decide)

/-! ## Lemmas: session pruning -/

theorem sessionGe_trans (a b c : ChatSession) :
    sessionGe a b → sessionGe b c → sessionGe a c := by
  simp only [sessionGe, decide_eq_true_eq]
  omega

theorem sessionGe_total (a b : ChatSession) : sessionGe a b || sessionGe b a := by
  simp only [sessionGe, Bool.or_eq_true, decide_eq_true_eq]
  omega

theorem mergeSort_sessions_pairwise (l : List ChatSession) :
    (l.mergeSort sessionGe).Pairwise (fun a b => sessionGe a b = true) := by
  have := List.sorted_mergeSort (fun a b c => sessionGe_trans a b c)
    sessionGe_total l
  exact this

/-- C6: when the session count exceeds `MAX_SESSIONS`, pruning keeps exactly
the first `MAX_SESSIONS` sessions of the list sorted descending by
`updatedAt`; every survivor's `updatedAt` is at most the head survivor's;
a still-present current id is kept and a dropped current id is repointed to
the head survivor (or `null` when none remain); and `createSession` pushes
the fresh session, makes it current, and prunes. -/
theorem C6_pruneSessions_policy (st : ChatState) (h : MAX_SESSIONS < st.sessions.length) :
    (pruneSessions st).sessions = (st.sessions.mergeSort sessionGe).take MAX_SESSIONS ∧
    (pruneSessions st).sessions.length = MAX_SESSIONS ∧
    (∀ s ∈ (pruneSessions st).sessions, ∀ s0 rest,
       (pruneSessions st).sessions = s0 :: rest → s.updatedAt ≤ s0.updatedAt) ∧
    (∀ cid, st.currentSessionId = some cid → ¬ cid = [] →
       ((pruneSessions st).sessions.any (fun s => s.id = cid) = true →
          (pruneSessions st).currentSessionId = some cid) ∧
       ((pruneSessions st).sessions.any (fun s => s.id = cid) = false →
          (pruneSessions st).currentSessionId =
            ((pruneSessions st).sessions.head?).map (fun s => s.id))) ∧
    (∀ modelId newId now,
       createSession st modelId newId now =
         (⟨newId, [], [], modelId, now, now⟩,
          pruneSessions ⟨st.sessions ++ [⟨newId, [], [], modelId, now, now⟩],
            some newId⟩)) := by
  have hkept : (pruneSessions st).sessions =
      (st.sessions.mergeSort sessionGe).take MAX_SESSIONS := by
    simp [pruneSessions, h]
  refine ⟨hkept, ?_, ?_, ?_, fun modelId newId now => rfl⟩
  · rw [hkept]
    simp only [List.length_take, List.length_mergeSort]
    omega
  · intro s hs s0 rest hc
    have hpw : ((st.sessions.mergeSort sessionGe).take MAX_SESSIONS).Pairwise
        (fun a b => sessionGe a b = true) :=
      (mergeSort_sessions_pairwise st.sessions).sublist
        (List.take_sublist MAX_SESSIONS _)
    rw [hkept] at hs hc
    rw [hc] at hpw hs
    rcases List.mem_cons.mp hs with h1 | h2
    · rw [h1]
    · have := (List.pairwise_cons.mp hpw).1 s h2
      simpa [sessionGe] using this
  · intro cid hcid hne
    have hbody : pruneSessions st =
        ⟨(st.sessions.mergeSort sessionGe).take MAX_SESSIONS,
         if cid ≠ [] ∧
             ¬ ((st.sessions.mergeSort sessionGe).take MAX_SESSIONS).any
               (fun s => s.id = cid) then
           match (st.sessions.mergeSort sessionGe).take MAX_SESSIONS with
           | [] => none
           | s :: _ => some s.id
         else some cid⟩ := by
      simp [pruneSessions, h, hcid]
    constructor
    · intro hany
      rw [hbody]
      have : ¬ (cid ≠ [] ∧
          ¬ ((st.sessions.mergeSort sessionGe).take MAX_SESSIONS).any
            (fun s => s.id = cid) = true) := by
        rw [hkept] at hany
        simp [hany]
      simp only [this, if_neg, ite_false]
    · intro hnone
      rw [hbody]
      have hcond : cid ≠ [] ∧
          ¬ ((st.sessions.mergeSort sessionGe).take MAX_SESSIONS).any
            (fun s => s.id = cid) = true := by
        rw [hkept] at hnone
        simp [hnone, hne]
      rw [if_pos hcond]
      cases hk : (st.sessions.mergeSort sessionGe).take MAX_SESSIONS with
      | nil => rfl
      | cons s0 rest => rfl

/-- Witness for C6: an 11-session manager (updatedAt 0..10, current pointing
at the oldest) prunes to the 10 freshest and repoints to the freshest. -/
theorem C6_pruneSessions_policy_witness :
    MAX_SESSIONS <
      (ChatState.mk
        (((List.range 11).map (fun k =>
           ChatSession.mk (Nat.toDigits 10 k) [] [] (("m").toList) k k)))
        (some (Nat.toDigits 10 0))).sessions.length ∧
    (pruneSessions
       (ChatState.mk
         (((List.range 11).map (fun k =>
            ChatSession.mk (Nat.toDigits 10 k) [] [] (("m").toList) k k)))
         (some (Nat.toDigits 10 0)))).sessions.length = MAX_SESSIONS := by
  refine ⟨by decide, ?_⟩
  exact (C6_pruneSessions_policy
    (ChatState.mk
      (((List.range 11).map (fun k =>
         ChatSession.mk (Nat.toDigits 10 k) [] [] (("m").toList) k k)))
      (some (Nat.toDigits 10 0))) (by decide)).2.1

/-! ## Context formatting claims -/

/-- Counterexample for C4: for the single file item
`{path: "a.md", content: "X", displayName: "a"}` the synthetic system
message built by `prependContext` has content `"Context:\n\n[a]\nX"`, which
is not the `formatContextForAPI` rendering
(`"The following context has been provided:\n\n--- File: a.md ---\n..."`). -/
theorem C4_prependContext_counterexample :
    (prependContext []
        [⟨("i1").toList, .file, some ("a.md").toList, ("X").toList, ("a").toList⟩]
        5).map (fun m => m.content) =
      [("Context:\n\n[a]\nX").toList] ∧
    formatContextForAPI
        [⟨("i1").toList, .file, some ("a.md").toList, ("X").toList, ("a").toList⟩] =
      ("The following context has been provided:\n\n--- File: a.md ---\nX\n--- End of a.md ---").toList ∧
    ¬ (prependContext []
         [⟨("i1").toList, .file, some ("a.md").toList, ("X").toList, ("a").toList⟩]
         5).map (fun m => m.content) =
      [formatContextForAPI
         [⟨("i1").toList, .file, some ("a.md").toList, ("X").toList, ("a").toList⟩]] :=
  ⟨rfl, rfl, by decide⟩

/-- C4 (amended): for a non-empty context item list, `prependContext`
prepends exactly one synthetic system-role message, but its content is the
client's own rendering `"Context:\n\n"` followed by the items rendered as
`"[" + displayName + "]\n" + content` joined by `"\n\n---\n\n"` — not the
`formatContextForAPI` rendering; for an empty list no message is
prepended. -/
theorem C4_prependContext_shape (messages : List ChatMessage)
    (contextItems : List ContextItem) (now : Nat) :
    (contextItems = [] → prependContext messages contextItems now = messages) ∧
    (¬ contextItems = [] →
       prependContext messages contextItems now =
         ⟨contextIdOf now, .system,
          ("Context:\n\n").toList ++
            List.intercalate ("\n\n---\n\n").toList
              (contextItems.map (fun item =>
                ('[' :: item.displayName) ++ (']' :: '\n' :: item.content))),
          now, none⟩ :: messages) := by
  constructor
  · intro he
    subst he
    rfl
  · intro hne
    have hlen : ¬ contextItems.length = 0 := by
      simpa [List.length_eq_zero] using hne
    simp [prependContext, hlen]

/-- Witness for C4's amended claim: the empty list prepends nothing and a
one-item list prepends exactly the `Context:`-rendered system message. -/
theorem C4_prependContext_shape_witness :
    prependContext [] ([] : List ContextItem) 5 = [] ∧
    prependContext []
        [⟨("i1").toList, .file, some ("a.md").toList, ("X").toList, ("a").toList⟩]
        5 =
      [⟨contextIdOf 5, .system, ("Context:\n\n[a]\nX").toList, 5, none⟩] := by
  constructor
  · exact (C4_prependContext_shape [] [] 5).1 rfl
  · have h := (C4_prependContext_shape []
      [⟨("i1").toList, .file, some ("a.md").toList, ("X").toList, ("a").toList⟩]
      5).2 (by decide)
    rw [h]
    decide
